import Mathlib

/-!
Verification of the AgoraAI blockchain / messaging modules.

Shallow embedding of:
  - src/blockchain/core.py      (Block, BlockchainManager)
  - src/blockchain/validation.py (TransactionValidator, ChainValidator, StateValidator)
  - src/communication/protocol.py (MessageType, Message, ProtocolHandler)
  - src/communication/messaging.py (MessageBroker.get_message_history, MessageHandler)

Python machine-level details are modelled as follows: SHA-256 is implemented
executably over Nat (32-bit words as Nat with explicit % 2^32);
json.dumps(..., sort_keys=True) is modelled by a canonical renderer over a JSON
value type; Python floats are restricted to whole-valued floats (rendered
"n.0"), which covers every numeric literal the code produces deterministically;
effectful inputs (uuid4(), datetime.now()) are passed as explicit arguments.
-/

/-! ## SHA-256, executable over Nat (32-bit words, explicit mod 2^32) -/

namespace Sha256

def M32 : Nat := 4294967296

def rotr (n x : Nat) : Nat := ((x >>> n) ||| (x <<< (32 - n))) % M32

def bigS0 (x : Nat) : Nat := rotr 2 x ^^^ rotr 13 x ^^^ rotr 22 x
def bigS1 (x : Nat) : Nat := rotr 6 x ^^^ rotr 11 x ^^^ rotr 25 x
def smallS0 (x : Nat) : Nat := rotr 7 x ^^^ rotr 18 x ^^^ (x >>> 3)
def smallS1 (x : Nat) : Nat := rotr 17 x ^^^ rotr 19 x ^^^ (x >>> 10)

def kConsts : List Nat :=
  [1116352408, 1899447441, 3049323471, 3921009573, 961987163, 1508970993,
   2453635748, 2870763221, 3624381080, 310598401, 607225278, 1426881987,
   1925078388, 2162078206, 2614888103, 3248222580, 3835390401, 4022224774,
   264347078, 604807628, 770255983, 1249150122, 1555081692, 1996064986,
   2554220882, 2821834349, 2952996808, 3210313671, 3336571891, 3584528711,
   113926993, 338241895, 666307205, 773529912, 1294757372, 1396182291,
   1695183700, 1986661051, 2177026350, 2456956037, 2730485921, 2820302411,
   3259730800, 3345764771, 3516065817, 3600352804, 4094571909, 275423344,
   430227734, 506948616, 659060556, 883997877, 958139571, 1322822218,
   1537002063, 1747873779, 1955562222, 2024104815, 2227730452, 2361852424,
   2428436474, 2756734187, 3204031479, 3329325298]

def initH : List Nat :=
  [1779033703, 3144134277, 1013904242, 2773480762,
   1359893119, 2600822924, 528734635, 1541459225]

def natToBytesBE (k n : Nat) : List Nat :=
  (List.range k).map (fun i => (n >>> (8 * (k - 1 - i))) % 256)

def padBytes (msg : List Nat) : List Nat :=
  let L := msg.length
  let zeroCount := (120 - ((L + 1) % 64)) % 64
  msg ++ [128] ++ List.replicate zeroCount 0 ++ natToBytesBE 8 (8 * L)

def toBlocksAux : Nat → List Nat → List (List Nat)
  | 0, _ => []
  | _, [] => []
  | fuel + 1, bs => bs.take 64 :: toBlocksAux fuel (bs.drop 64)

def toBlocks (bs : List Nat) : List (List Nat) := toBlocksAux bs.length bs

def bytesToWordsAux : Nat → List Nat → List Nat
  | 0, _ => []
  | fuel + 1, b0 :: b1 :: b2 :: b3 :: rest =>
      (((b0 * 256 + b1) * 256 + b2) * 256 + b3) :: bytesToWordsAux fuel rest
  | _ + 1, _ => []

def bytesToWords (bs : List Nat) : List Nat := bytesToWordsAux bs.length bs

def extendSchedule : Nat → List Nat → List Nat
  | 0, ws => ws
  | n + 1, ws =>
    let l := ws.length
    let w := (ws.getD (l - 16) 0 + smallS0 (ws.getD (l - 15) 0) +
              ws.getD (l - 7) 0 + smallS1 (ws.getD (l - 2) 0)) % M32
    extendSchedule n (ws ++ [w])

def roundStep (st : List Nat) (kw : Nat × Nat) : List Nat :=
  match st with
  | [a, b, c, d, e, f, g, h] =>
    let ch := (e &&& f) ^^^ ((4294967295 ^^^ e) &&& g)
    let maj := ((a &&& b) ^^^ (a &&& c)) ^^^ (b &&& c)
    let t1 := (h + bigS1 e + ch + kw.1 + kw.2) % M32
    let t2 := (bigS0 a + maj) % M32
    [(t1 + t2) % M32, a, b, c, (d + t1) % M32, e, f, g]
  | _ => st

def compressBlock (hs : List Nat) (block : List Nat) : List Nat :=
  let w := extendSchedule 48 (bytesToWords block)
  let st := (kConsts.zip w).foldl roundStep hs
  (hs.zip st).map (fun p => (p.1 + p.2) % M32)

def sha256Bytes (msg : List Nat) : List Nat :=
  let hs := (toBlocks (padBytes msg)).foldl compressBlock initH
  (hs.map (natToBytesBE 4)).flatten

def hexDigit (n : Nat) : Char := if n < 10 then Char.ofNat (48 + n) else Char.ofNat (87 + n)

def byteToHex (b : Nat) : List Char := [hexDigit (b / 16), hexDigit (b % 16)]

def charUtf8 (c : Char) : List Nat :=
  let n := c.toNat
  if n < 128 then [n]
  else if n < 2048 then [192 + n / 64, 128 + n % 64]
  else if n < 65536 then [224 + n / 4096, 128 + (n / 64) % 64, 128 + n % 64]
  else [240 + n / 262144, 128 + (n / 4096) % 64, 128 + (n / 64) % 64, 128 + n % 64]

def strBytes (s : String) : List Nat := (s.data.map charUtf8).flatten

/-- hashlib.sha256(s.encode()).hexdigest() -/
def sha256 (s : String) : String := String.mk ((sha256Bytes (strBytes s)).map byteToHex).flatten

end Sha256

/-! ## JSON values and the canonical rendering used for hashing
(json.dumps with sort_keys=True, default separators, ensure_ascii=True).
Numbers are Python ints (jInt) or whole-valued Python floats (jFloat n,
rendered "n.0"), the only floats the embedded code produces from its own
literals. -/

inductive JVal where
  | jInt : Int → JVal
  | jFloat : Int → JVal
  | jStr : String → JVal
  | jNull : JVal
  | jList : List JVal → JVal
  | jObj : List (String × JVal) → JVal

def hex4 (n : Nat) : List Char :=
  [Sha256.hexDigit (n / 4096 % 16), Sha256.hexDigit (n / 256 % 16),
   Sha256.hexDigit (n / 16 % 16), Sha256.hexDigit (n % 16)]

/-- Escaping of one character as json.dumps (ensure_ascii=True) performs it. -/
def escChar (c : Char) : List Char :=
  if c = '"' then ['\\', '"']
  else if c = '\\' then ['\\', '\\']
  else if c = '\n' then ['\\', 'n']
  else if c = '\r' then ['\\', 'r']
  else if c = '\t' then ['\\', 't']
  else if c.toNat = 8 then ['\\', 'b']
  else if c.toNat = 12 then ['\\', 'f']
  else if 32 ≤ c.toNat ∧ c.toNat ≤ 126 then [c]
  else if c.toNat < 65536 then '\\' :: 'u' :: hex4 c.toNat
  else
    let n := c.toNat - 65536
    '\\' :: 'u' :: hex4 (55296 + n / 1024) ++ '\\' :: 'u' :: hex4 (56320 + n % 1024)

/-- A Python string literal as json.dumps renders it. -/
def renderStr (s : String) : String := "\"" ++ String.mk (s.data.map escChar).flatten ++ "\""

/-- Code-point lexicographic comparison, as Python compares str keys. -/
def charListLt : List Char → List Char → Bool
  | [], [] => false
  | [], _ :: _ => true
  | _ :: _, [] => false
  | a :: as, b :: bs => if a < b then true else if b < a then false else charListLt as bs

def strLt (a b : String) : Bool := charListLt a.data b.data

/-- Stable insertion sort of (key, rendered value) pairs by key, as sort_keys sorts items. -/
def insertPair (p : String × String) : List (String × String) → List (String × String)
  | [] => [p]
  | q :: rest => if strLt p.1 q.1 then p :: q :: rest else q :: insertPair p rest

def sortPairs : List (String × String) → List (String × String) :=
  List.foldr insertPair []

mutual
/-- json.dumps(v, sort_keys=True) with default separators. -/
def renderJ : JVal → String
  | .jInt n => toString n
  | .jFloat n => toString n ++ ".0"
  | .jStr s => renderStr s
  | .jNull => "null"
  | .jList xs => "[" ++ String.intercalate ", " (renderArr xs) ++ "]"
  | .jObj kvs =>
      "\x7b" ++
      String.intercalate ", "
        ((sortPairs (renderFields kvs)).map (fun p => renderStr p.1 ++ ": " ++ p.2)) ++
      "\x7d"

def renderArr : List JVal → List String
  | [] => []
  | x :: xs => renderJ x :: renderArr xs

def renderFields : List (String × JVal) → List (String × String)
  | [] => []
  | (k, v) :: rest => (k, renderJ v) :: renderFields rest
end

/-! ## src/blockchain/core.py -/

/-- A Python transaction record / dict, insertion-ordered. -/
def Tx : Type := List (String × JVal)

/-- Block (dataclass): index, timestamp, transactions, previous_hash, nonce,
    and the hash field set by __post_init__ / the mining loop. -/
structure Block where
  index : Nat
  timestamp : Int
  transactions : List Tx
  previous_hash : String
  nonce : Nat
  hash : String

/-- Block.calculate_hash: sha256 of json.dumps(the five content fields, sort_keys=True). -/
def calculate_hash (index : Nat) (timestamp : Int) (transactions : List Tx)
    (previous_hash : String) (nonce : Nat) : String :=
  Sha256.sha256 (renderJ (.jObj
    [("index", .jInt index),
     ("timestamp", .jFloat timestamp),
     ("transactions", .jList (transactions.map .jObj)),
     ("previous_hash", .jStr previous_hash),
     ("nonce", .jInt nonce)]))

/-- Block(...) construction: __post_init__ sets hash = calculate_hash(). -/
def mkBlock (index : Nat) (timestamp : Int) (transactions : List Tx)
    (previous_hash : String) : Block :=
  { index := index, timestamp := timestamp, transactions := transactions,
    previous_hash := previous_hash, nonce := 0,
    hash := calculate_hash index timestamp transactions previous_hash 0 }

structure BlockchainManager where
  chain : List Block
  pending_transactions : List Tx
  difficulty : Nat
  mining_reward : Int

/-- The target string of difficulty leading zeros ("0" * difficulty). -/
def zeros (d : Nat) : String := String.mk (List.replicate d '0')

/-- Python str.startswith. -/
def strStarts (s p : String) : Bool := List.isPrefixOf p.data s.data

/-- BlockchainManager.__init__ at a given construction time: creates the genesis
    block (index 0, previous_hash "0", no transactions, nonce 0 — no mining). -/
def initManager (difficulty : Nat) (ts : Int) : BlockchainManager :=
  { chain := [mkBlock 0 ts [] "0"], pending_transactions := [],
    difficulty := difficulty, mining_reward := 1 }

/-- The transaction dict built by record_transaction:
    keys id, timestamp, data — and no "type" key. -/
def txRecord (id : String) (ts : Int) (data : JVal) : Tx :=
  [("id", .jStr id), ("timestamp", .jFloat ts), ("data", data)]

/-- record_transaction (uuid and now passed explicitly); returns (tx id, new state). -/
def record_transaction (st : BlockchainManager) (id : String) (ts : Int) (data : JVal) :
    String × BlockchainManager :=
  (id, { st with pending_transactions := st.pending_transactions ++ [txRecord id ts data] })

/-- The reward record mine_block leaves in the pending pool. -/
def rewardTx (miner_address : String) (mining_reward : Int) : Tx :=
  [("from", .jStr "network"), ("to", .jStr miner_address), ("amount", .jFloat mining_reward)]

/-- The proof-of-work loop of mine_block: starting from the given nonce, find the
    first nonce whose hash has the required leading zeros. The while loop of the
    source is unbounded; fuel bounds the search, returning none when exhausted. -/
def powSearch (fuel : Nat) (difficulty index : Nat) (ts : Int) (txs : List Tx)
    (prev : String) (nonce : Nat) : Option (Nat × String) :=
  match fuel with
  | 0 => none
  | f + 1 =>
    let h := calculate_hash index ts txs prev nonce
    if strStarts h (zeros difficulty) then some (nonce, h)
    else powSearch f difficulty index ts txs prev (nonce + 1)

/-- mine_block: returns none if the pending pool is empty (the source returns None);
    otherwise builds the draft block on top of chain[-1], runs proof-of-work,
    appends the sealed block and resets the pool to the single reward record.
    Also none if the chain is empty (chain[-1] would raise) or fuel runs out. -/
def mine_block (st : BlockchainManager) (ts : Int) (miner_address : String) (fuel : Nat) :
    Option (Block × BlockchainManager) :=
  match st.pending_transactions with
  | [] => none
  | _ :: _ =>
    match st.chain.getLast? with
    | none => none
    | some last =>
      match powSearch fuel st.difficulty st.chain.length ts st.pending_transactions last.hash 0 with
      | none => none
      | some (nonce, h) =>
        let b : Block :=
          { index := st.chain.length, timestamp := ts,
            transactions := st.pending_transactions, previous_hash := last.hash,
            nonce := nonce, hash := h }
        some (b, { st with chain := st.chain ++ [b],
                           pending_transactions := [rewardTx miner_address st.mining_reward] })

/-- One step of the is_chain_valid loop body at block b with predecessor prev. -/
def blockCheck (prev b : Block) : Bool :=
  (b.hash = calculate_hash b.index b.timestamp b.transactions b.previous_hash b.nonce : Bool)
    && (b.previous_hash = prev.hash : Bool)

/-- is_chain_valid walop over chain[1:], threading the predecessor. -/
def chainOk : Block → List Block → Bool
  | _, [] => true
  | prev, b :: rest => blockCheck prev b && chainOk b rest

/-- BlockchainManager.is_chain_valid. -/
def is_chain_valid (st : BlockchainManager) : Bool :=
  match st.chain with
  | [] => true
  | g :: rest => chainOk g rest

/-! ## Interleaving model for record_transaction / mine_block (C2)

Under the asyncio scheduling the source runs on, a coroutine is only
interleaved at await points; neither record_transaction's body nor the whole of
mine_block (whose proof-of-work loop contains no await) has one, so every legal
interleaving of concurrent record_transaction and mine_block calls is a
sequence of these two atomic operations. -/

inductive LedgerOp where
  | record : String → Int → JVal → LedgerOp
  | mine : Int → String → Nat → LedgerOp

def applyOp (st : BlockchainManager) : LedgerOp → BlockchainManager
  | .record id ts d => (record_transaction st id ts d).2
  | .mine ts m fuel =>
    match mine_block st ts m fuel with
    | some (_, st2) => st2
    | none => st

def runOps (st : BlockchainManager) : List LedgerOp → BlockchainManager :=
  List.foldl applyOp st

/-- A transaction record is present in the ledger state: still pending, or
    sealed inside some block of the chain. -/
def txInState (st : BlockchainManager) (tx : Tx) : Prop :=
  tx ∈ st.pending_transactions ∨ ∃ b ∈ st.chain, tx ∈ b.transactions

/-! ## src/communication/protocol.py -/

inductive MessageType where
  | REQUEST | RESPONSE | EVENT | ERROR | HEARTBEAT
deriving DecidableEq

/-- The .name of the enum member, as to_json encodes it. -/
def MessageType.name : MessageType → String
  | .REQUEST => "REQUEST"
  | .RESPONSE => "RESPONSE"
  | .EVENT => "EVENT"
  | .ERROR => "ERROR"
  | .HEARTBEAT => "HEARTBEAT"

/-- MessageType[name] lookup, as from_json decodes it (KeyError = none). -/
def MessageType.fromName (s : String) : Option MessageType :=
  if s = "REQUEST" then some .REQUEST
  else if s = "RESPONSE" then some .RESPONSE
  else if s = "EVENT" then some .EVENT
  else if s = "ERROR" then some .ERROR
  else if s = "HEARTBEAT" then some .HEARTBEAT
  else none

structure Message where
  id : String
  type : MessageType
  sender : String
  recipient : String
  content : List (String × JVal)
  timestamp : Int
  correlation_id : Option String

/-- Message.to_json, at the level of the JSON document it dumps
    (json.dumps preserves the written field order; json.loads inverts it,
    so the stdlib string step is the identity on this value). -/
def Message.to_json (m : Message) : JVal :=
  .jObj
    [("id", .jStr m.id),
     ("type", .jStr m.type.name),
     ("sender", .jStr m.sender),
     ("recipient", .jStr m.recipient),
     ("content", .jObj m.content),
     ("timestamp", .jFloat m.timestamp),
     ("correlation_id", match m.correlation_id with | some c => .jStr c | none => .jNull)]

/-- dict lookup in a parsed JSON object. -/
def jLookup : List (String × JVal) → String → Option JVal
  | [], _ => none
  | (k, v) :: rest, key => if k = key then some v else jLookup rest key

/-- Message.from_json: data["type"] = MessageType[data["type"]]; cls(**data).
    none where the source would raise (missing key, unknown type name,
    field of the wrong shape). -/
def Message.from_json (j : JVal) : Option Message :=
  match j with
  | .jObj kvs =>
    match jLookup kvs "id", jLookup kvs "type", jLookup kvs "sender",
          jLookup kvs "recipient", jLookup kvs "content",
          jLookup kvs "timestamp", jLookup kvs "correlation_id" with
    | some (.jStr i), some (.jStr tn), some (.jStr s), some (.jStr r),
      some (.jObj c), some (.jFloat t), some corr =>
      match MessageType.fromName tn with
      | some ty =>
        match corr with
        | .jNull => some ⟨i, ty, s, r, c, t, none⟩
        | .jStr cid => some ⟨i, ty, s, r, c, t, some cid⟩
        | _ => none
      | none => none
    | _, _, _, _, _, _, _ => none
  | _ => none

/-- ProtocolHandler.handle_message; the fresh uuid and timestamp that
    Message.create draws for a reply are passed explicitly. -/
def handle_message (freshId : String) (ts : Int) (m : Message) : Option Message :=
  match m.type with
  | .REQUEST =>
    some ⟨freshId, .RESPONSE, m.recipient, m.sender,
          [("status", .jStr "received")], ts, some m.id⟩
  | .RESPONSE => none
  | .EVENT => none
  | .ERROR =>
    some ⟨freshId, .ERROR, m.recipient, m.sender,
          [("error", .jStr "Error processed")], ts, some m.id⟩
  | .HEARTBEAT =>
    some ⟨freshId, .HEARTBEAT, m.recipient, m.sender,
          [("status", .jStr "alive")], ts, some m.id⟩

/-! ## src/communication/messaging.py -/

/-- MessageBroker.message_history: mapping sender -> published messages,
    as an association list; defaultdict lookup yields []. -/
def lookupHistory : List (String × List Message) → String → List Message
  | [], _ => []
  | (k, v) :: rest, key => if k = key then v else lookupHistory rest key

/-- Python truthiness of an Optional[float]: None and 0 are falsy. -/
def truthyF : Option Int → Bool
  | none => false
  | some x => decide (x ≠ 0)

/-- MessageBroker.get_message_history: if neither bound is truthy the full list
    is returned; otherwise a message is skipped when a truthy start bound
    exceeds its timestamp or a truthy end bound is below it. -/
def get_message_history (history : List (String × List Message)) (agent_id : String)
    (start_time end_time : Option Int) : List Message :=
  let messages := lookupHistory history agent_id
  if truthyF start_time || truthyF end_time then
    messages.filter (fun m =>
      !(truthyF start_time && decide (m.timestamp < start_time.getD 0)) &&
      !(truthyF end_time && decide (m.timestamp > end_time.getD 0)))
  else messages

/-- The filter the claim describes, one bound treated as unset exactly when the
    code treats it as unset (absent or 0): keep unless strictly before a set
    start_time or strictly after a set end_time. -/
def specKeep (start_time end_time : Option Int) (m : Message) : Bool :=
  (match start_time with
   | none => true
   | some s => if s = 0 then true else decide (s ≤ m.timestamp)) &&
  (match end_time with
   | none => true
   | some e => if e = 0 then true else decide (m.timestamp ≤ e))

/-- MessageHandler state: the keys of the pending_requests dict
    (the asyncio.Future values are abstracted away). -/
structure MessageHandler where
  agent_id : String
  pending_requests : List String

/-- dict assignment pending_requests[k] = future, on the key set. -/
def dictInsert (l : List String) (k : String) : List String :=
  if l.contains k then l else l ++ [k]

/-- dict.pop(k, None), on the key set. -/
def dictRemove (l : List String) (k : String) : List String :=
  l.filter (fun x => x != k)

/-- MessageHandler.send_request with the fresh uuid passed explicitly.
    reply is the outcome of awaiting the future against the caller timeout:
    some r when a matching reply resolved it in time, none when
    asyncio.wait_for raised TimeoutError. Both paths run the finally: block,
    which pops the pending slot. -/
def send_request (h : MessageHandler) (freshId : String) (reply : Option Message) :
    Option Message × MessageHandler :=
  let h1 : MessageHandler :=
    { h with pending_requests := dictInsert h.pending_requests freshId }
  match reply with
  | some r => (some r,
      { h1 with pending_requests := dictRemove h1.pending_requests freshId })
  | none => (none,
      { h1 with pending_requests := dictRemove h1.pending_requests freshId })

/-- The test MessageHandler.handle_message performs before resolving a future:
    message.correlation_id in self.pending_requests. A message for which this
    is false resolves nothing. -/
def resolvesPending (h : MessageHandler) (m : Message) : Bool :=
  match m.correlation_id with
  | some c => h.pending_requests.contains c
  | none => false

/-! ## src/blockchain/validation.py -/

inductive ContractState where
  | PENDING | ACTIVE | COMPLETED | CANCELLED | DISPUTED
deriving DecidableEq

/-- StateValidator.valid_state_transitions, as the set of allowed successors. -/
def valid_state_transitions : ContractState → List ContractState
  | .PENDING => [.ACTIVE, .CANCELLED]
  | .ACTIVE => [.COMPLETED, .DISPUTED]
  | .DISPUTED => [.COMPLETED, .CANCELLED]
  | .COMPLETED => []
  | .CANCELLED => []

/-- StateValidator.validate_state_transition. -/
def validate_state_transition (current_state new_state : ContractState) : Bool :=
  (valid_state_transitions current_state).contains new_state

/-- TransactionValidator.required_fields["transaction"]. -/
def requiredTransactionFields : List String := ["id", "timestamp", "type", "data"]

/-- field in data, for every required field. -/
def check_required_fields (data : Tx) (required : List String) : Bool :=
  required.all (fun f => (data.map Prod.fst).contains f)

/-- isinstance(x, (int, float)) on a JSON value. -/
def isNumeric : JVal → Bool
  | .jInt _ => true
  | .jFloat _ => true
  | _ => false

def numValue : JVal → Int
  | .jInt n => n
  | .jFloat n => n
  | _ => 0

/-- TransactionValidator.validate_transaction, validated at time now. -/
def validate_transaction (transaction : Tx) (now : Int) : Bool :=
  if !check_required_fields transaction requiredTransactionFields then false
  else
    match jLookup transaction "timestamp" with
    | some v => if !isNumeric v then false else if numValue v > now then false else true
    | none => false

/-- ChainValidator._validate_block_structure. -/
def validate_block_structure (block : Tx) : Bool :=
  check_required_fields block
    ["index", "timestamp", "transactions", "previous_hash", "nonce", "hash"]

/-- ChainValidator._validate_block_hash: independent hash recomputation over
    the five content fields plus the leading-zero target check. A non-string
    stored hash compares unequal to the recomputed str and fails. -/
def validate_block_hash (block : Tx) (difficulty : Nat) : Bool :=
  let calculated := Sha256.sha256 (renderJ (.jObj
    [("index", (jLookup block "index").getD .jNull),
     ("timestamp", (jLookup block "timestamp").getD .jNull),
     ("transactions", (jLookup block "transactions").getD .jNull),
     ("previous_hash", (jLookup block "previous_hash").getD .jNull),
     ("nonce", (jLookup block "nonce").getD .jNull)]))
  match jLookup block "hash" with
  | some (.jStr h) => (h = calculated : Bool) && strStarts h (zeros difficulty)
  | _ => false

/-- The "transactions" entry of a serialized block as a list of dicts; none
    where iterating it in Python would not produce dicts to validate. -/
def getTxList : JVal → Option (List Tx)
  | .jList xs => xs.mapM (fun x => match x with | .jObj kvs => some kvs | _ => none)
  | _ => none

/-- ChainValidator.validate_block at validation time now. none marks inputs on
    which the source raises instead of returning (transactions not a list of
    dicts); every boolean outcome of the source is modelled exactly. -/
def validate_block (block : Tx) (previous_hash : String) (difficulty : Nat) (now : Int) :
    Option Bool :=
  if !validate_block_structure block then some false
  else
    match jLookup block "previous_hash" with
    | some (.jStr p) =>
      if p != previous_hash then some false
      else if !validate_block_hash block difficulty then some false
      else
        match getTxList ((jLookup block "transactions").getD .jNull) with
        | none => none
        | some txs => some (txs.all (fun t => validate_transaction t now))
    | _ => some false

/-! ## States reachable through record_transaction / mine_block (C3),
and concrete instances used by witnesses. -/

inductive ReachableBM : BlockchainManager → Prop where
  | genesis (d : Nat) (ts : Int) : ReachableBM (initManager d ts)
  | record (st : BlockchainManager) (id : String) (ts : Int) (data : JVal) :
      ReachableBM st → ReachableBM (record_transaction st id ts data).2
  | mineOk (st : BlockchainManager) (b : Block) (st2 : BlockchainManager)
      (ts : Int) (m : String) (fuel : Nat) :
      ReachableBM st → mine_block st ts m fuel = some (b, st2) → ReachableBM st2

def cGenesisBlock : Block := mkBlock 0 1700000000 [] "0"

def c1State : BlockchainManager :=
  (record_transaction (initManager 0 1700000000) "t1" 1700000001 (.jObj [("x", .jInt 1)])).2

def c1Pair : Block × BlockchainManager :=
  (mine_block c1State 1700000002 "m1" 1).getD (cGenesisBlock, c1State)

def c3TamperedTxs : List Tx := [txRecord "t1" 1700000001 (.jObj [("x", .jInt 2)])]

def c3Tampered : BlockchainManager :=
  { c1Pair.2 with chain := [cGenesisBlock, { c1Pair.1 with transactions := c3TamperedTxs }] }

def c6Req : Message := ⟨"m7", .REQUEST, "alice", "bob", [], 2, none⟩

def c8Msg : Message := ⟨"id5", .EVENT, "alice", "bob", [], 5, none⟩

def c10Tx : Tx := txRecord "t1" 5 (.jObj [])

def c10Block : Tx := [("transactions", .jList [.jObj c10Tx])]

/-! # Theorems -/

/-- The proof-of-work loop returns the hash of the nonce it stops at,
    and that hash meets the leading-zeros target. -/
theorem powSearch_some {fuel d idx : Nat} {ts : Int} {txs : List Tx} {prev : String}
    {n0 n : Nat} {h : String}
    (hp : powSearch fuel d idx ts txs prev n0 = some (n, h)) :
    h = calculate_hash idx ts txs prev n ∧ strStarts h (zeros d) = true := by
  induction fuel generalizing n0 with
  | zero => simp [powSearch] at hp
  | succ f ih =>
    rw [powSearch] at hp
    by_cases hs : strStarts (calculate_hash idx ts txs prev n0) (zeros d) = true
    · simp [hs] at hp
      obtain ⟨hn, hh⟩ := hp
      subst hn; subst hh
      exact ⟨rfl, hs⟩
    · simp [Bool.not_eq_true] at hs
      simp [hs] at hp
      exact ih hp

/-- Everything a successful mine_block produces, read off the definition. -/
theorem mine_block_shape {st : BlockchainManager} {ts : Int} {m : String} {fuel : Nat}
    {b : Block} {st2 : BlockchainManager}
    (hm : mine_block st ts m fuel = some (b, st2)) :
    st2.chain = st.chain ++ [b] ∧
    b.transactions = st.pending_transactions ∧
    b.hash = calculate_hash b.index b.timestamp b.transactions b.previous_hash b.nonce ∧
    strStarts b.hash (zeros st.difficulty) = true ∧
    (∃ last, st.chain.getLast? = some last ∧ b.previous_hash = last.hash) ∧
    st2.pending_transactions = [rewardTx m st.mining_reward] ∧
    st2.difficulty = st.difficulty ∧ st2.mining_reward = st.mining_reward := by
  rw [mine_block] at hm
  cases hpend : st.pending_transactions with
  | nil => simp only [hpend] at hm; exact Option.noConfusion hm
  | cons t ts2 =>
    simp only [hpend] at hm
    cases hlast : st.chain.getLast? with
    | none => simp only [hlast] at hm; exact Option.noConfusion hm
    | some last =>
      simp only [hlast] at hm
      cases hps : powSearch fuel st.difficulty st.chain.length ts (t :: ts2) last.hash 0 with
      | none => simp only [hps] at hm; exact Option.noConfusion hm
      | some nh =>
        obtain ⟨nonce, hsh⟩ := nh
        simp only [hps, Option.some.injEq, Prod.mk.injEq] at hm
        obtain ⟨hb, hst⟩ := hm
        obtain ⟨hhash, htarget⟩ := powSearch_some hps
        subst hb; subst hst
        exact ⟨rfl, rfl, hhash, htarget, ⟨last, rfl, rfl⟩, rfl, rfl, rfl⟩

/-- C1: from any state with a non-empty pending pool, a completed mine_block
    appends exactly one block, whose hash meets the difficulty target of
    leading zero hex characters and whose previous_hash is the prior latest
    block's hash, and leaves exactly the single network->miner reward record
    in pending_transactions. -/
theorem mine_block_appends_one_target_block
    (st : BlockchainManager) (ts : Int) (miner : String) (fuel : Nat)
    (b : Block) (st2 : BlockchainManager) (last : Block)
    (_hne : st.pending_transactions ≠ [])
    (hlast : st.chain.getLast? = some last)
    (hm : mine_block st ts miner fuel = some (b, st2)) :
    st2.chain = st.chain ++ [b] ∧
    st2.chain.length = st.chain.length + 1 ∧
    strStarts b.hash (zeros st.difficulty) = true ∧
    b.previous_hash = last.hash ∧
    st2.pending_transactions = [rewardTx miner st.mining_reward] := by
  obtain ⟨hchain, _, _, htarget, ⟨last2, hlast2, hprev⟩, hpend, _, _⟩ := mine_block_shape hm
  rw [hlast] at hlast2
  obtain rfl : last2 = last := by injection hlast2.symm
  refine ⟨hchain, ?_, htarget, hprev, hpend⟩
  rw [hchain]; simp

set_option maxRecDepth 1000000 in
/-- C1 witness: difficulty 0, one pending transaction; the mined block extends
    the concrete genesis chain. -/
theorem mine_block_appends_one_target_block_witness :
    c1Pair.2.chain = c1State.chain ++ [c1Pair.1] ∧
    c1Pair.2.chain.length = c1State.chain.length + 1 ∧
    strStarts c1Pair.1.hash (zeros c1State.difficulty) = true ∧
    c1Pair.1.previous_hash = cGenesisBlock.hash ∧
    c1Pair.2.pending_transactions = [rewardTx "m1" c1State.mining_reward] :=
  mine_block_appends_one_target_block c1State 1700000002 "m1" 1 c1Pair.1 c1Pair.2 cGenesisBlock
    (by simp [c1State, record_transaction, initManager]) rfl rfl

/-- Each atomic ledger operation preserves presence of a transaction record:
    a pending record either stays pending or is sealed into the mined block. -/
theorem txInState_applyOp {st : BlockchainManager} {tx : Tx} (o : LedgerOp)
    (h : txInState st tx) : txInState (applyOp st o) tx := by
  cases o with
  | record id ts d =>
    cases h with
    | inl hp =>
      left
      simp only [applyOp, record_transaction]
      exact List.mem_append_left _ hp
    | inr hc => right; exact hc
  | mine ts m fuel =>
    simp only [applyOp]
    cases hm : mine_block st ts m fuel with
    | none => exact h
    | some p =>
      obtain ⟨b, st2⟩ := p
      obtain ⟨hchain, htxs, _, _, _, _, _, _⟩ := mine_block_shape hm
      cases h with
      | inl hp =>
        right
        exact ⟨b, by rw [hchain]; exact List.mem_append_right _ (List.mem_singleton.mpr rfl),
               by rw [htxs]; exact hp⟩
      | inr hc =>
        obtain ⟨bl, hbl, htx⟩ := hc
        right
        exact ⟨bl, by rw [hchain]; exact List.mem_append_left _ hbl, htx⟩

/-- Presence of a transaction record is preserved by any sequence of
    record_transaction / mine_block operations. -/
theorem txInState_runOps {st : BlockchainManager} {tx : Tx} (ops : List LedgerOp)
    (h : txInState st tx) : txInState (runOps st ops) tx := by
  induction ops generalizing st with
  | nil => exact h
  | cons o rest ih => exact ih (txInState_applyOp o h)

/-- C2: in every interleaving of record_transaction and mine_block operations
    (the atomic units asyncio scheduling admits, since neither body awaits),
    a recorded transaction is afterwards either still in the pending pool or
    inside some mined block of the chain — never lost. -/
theorem recorded_transaction_never_lost (st : BlockchainManager)
    (pre post : List LedgerOp) (id : String) (ts : Int) (d : JVal) :
    txInState (runOps ((record_transaction (runOps st pre) id ts d).2) post)
      (txRecord id ts d) := by
  apply txInState_runOps
  left
  simp only [record_transaction]
  exact List.mem_append_right _ (List.mem_singleton.mpr rfl)

/-- Appending a block whose stored hash is its recomputed content hash and whose
    previous_hash is the hash of the current last block keeps the chain walk valid. -/
theorem chainOk_append {last b : Block} (g : Block) (rest : List Block)
    (hok : chainOk g rest = true)
    (hlast : (g :: rest).getLast? = some last)
    (hprev : b.previous_hash = last.hash)
    (hhash : b.hash = calculate_hash b.index b.timestamp b.transactions b.previous_hash b.nonce) :
    chainOk g (rest ++ [b]) = true := by
  induction rest generalizing g with
  | nil =>
    obtain rfl : last = g := by simpa using hlast.symm
    simp [chainOk, blockCheck, hhash, hprev]
  | cons b2 rest ih =>
    rw [List.getLast?_cons_cons] at hlast
    rw [chainOk, Bool.and_eq_true] at hok
    rw [List.cons_append, chainOk, Bool.and_eq_true]
    exact ⟨hok.1, ih b2 hok.2 hlast⟩

/-- Any chain walk that passes over a block whose stored hash is not its
    recomputed content hash fails. -/
theorem chainOk_badBlock (g : Block) (rest1 : List Block) (bad : Block) (rest2 : List Block)
    (hbad : bad.hash ≠ calculate_hash bad.index bad.timestamp bad.transactions
              bad.previous_hash bad.nonce) :
    chainOk g (rest1 ++ bad :: rest2) = false := by
  induction rest1 generalizing g with
  | nil => simp [chainOk, blockCheck, hbad]
  | cons b2 r ih => simp [chainOk, ih b2]

/-- Every state reachable through record_transaction / mine_block has a valid chain. -/
theorem reachable_chain_valid {st : BlockchainManager} (h : ReachableBM st) :
    is_chain_valid st = true := by
  induction h with
  | genesis d ts => rfl
  | record st id ts data h ih => exact ih
  | mineOk st b st2 ts m fuel h hm ih =>
    obtain ⟨hchain, _, hhash, _, ⟨last, hlast, hprev⟩, _, _, _⟩ := mine_block_shape hm
    cases hc : st.chain with
    | nil => rw [hc] at hlast; simp at hlast
    | cons g rest =>
      rw [hc] at hlast hchain
      simp only [is_chain_valid, hc] at ih
      rw [List.cons_append] at hchain
      simp only [is_chain_valid, hchain]
      exact chainOk_append g rest ih hlast hprev hhash

/-- C3: every chain built solely through record_transaction and mine_block from
    the genesis state passes is_chain_valid; and replacing the transaction list
    of any non-genesis block (its stored hash no longer matching the recomputed
    content hash) makes is_chain_valid return false. -/
theorem chain_validity (st : BlockchainManager) :
    (ReachableBM st → is_chain_valid st = true) ∧
    (∀ (g : Block) (rest1 : List Block) (blk : Block) (txs2 : List Tx) (rest2 : List Block),
      st.chain = g :: rest1 ++ { blk with transactions := txs2 } :: rest2 →
      blk.hash ≠ calculate_hash blk.index blk.timestamp txs2 blk.previous_hash blk.nonce →
      is_chain_valid st = false) := by
  constructor
  · exact reachable_chain_valid
  · intro g rest1 blk txs2 rest2 hchain hbad
    simp only [is_chain_valid, hchain]
    exact chainOk_badBlock g rest1 _ rest2 hbad

set_option maxRecDepth 1000000 in
/-- C3 witness: the concrete two-block chain mined at difficulty 0 is valid;
    replacing block 1's transaction data invalidates it. -/
theorem chain_validity_witness :
    is_chain_valid c1Pair.2 = true ∧ is_chain_valid c3Tampered = false :=
  ⟨(chain_validity c1Pair.2).1
      (ReachableBM.mineOk c1State c1Pair.1 c1Pair.2 1700000002 "m1" 1
        (ReachableBM.record (initManager 0 1700000000) "t1" 1700000001
          (.jObj [("x", .jInt 1)]) (ReachableBM.genesis 0 1700000000)) rfl),
   (chain_validity c3Tampered).2 cGenesisBlock [] c1Pair.1 c3TamperedTxs [] rfl (by decide)⟩

set_option maxRecDepth 1000000 in
/-- C4 counterexample: the genesis block is not mined — constructed at time
    1700000000 with the default difficulty 4, its hash does not have 4 leading
    zero hex characters. -/
theorem genesis_target_counterexample :
    (initManager 4 1700000000).chain.head? = some cGenesisBlock ∧
    strStarts cGenesisBlock.hash (zeros (initManager 4 1700000000).difficulty) = false :=
  ⟨rfl, by rfl⟩

/-- C4 amended: the genesis block created at construction has index 0,
    previous_hash "0", an empty transaction list, nonce 0, and hash equal to
    the content hash of those fields; no proof-of-work search is applied to it,
    so its hash need not meet the difficulty target. -/
theorem genesis_block_fields (d : Nat) (ts : Int) :
    (initManager d ts).chain =
      [{ index := 0, timestamp := ts, transactions := [], previous_hash := "0",
         nonce := 0, hash := calculate_hash 0 ts [] "0" 0 }] ∧
    (initManager d ts).pending_transactions = [] :=
  ⟨rfl, rfl⟩

/-- C5: the wire encoding round-trips — decoding the encoded envelope
    reproduces an equal Message in every field, for all five message types,
    including enum-by-name encoding of type and the optional correlation_id. -/
theorem message_roundtrip (m : Message) : Message.from_json (Message.to_json m) = some m := by
  obtain ⟨i, ty, s, r, c, t, corr⟩ := m
  cases ty <;> cases corr <;> rfl

/-- C6: ProtocolHandler.handle_message dispatches purely by type — REQUEST
    yields a RESPONSE to the sender with status "received", RESPONSE and EVENT
    yield no reply, ERROR yields an ERROR reply, HEARTBEAT yields a HEARTBEAT
    reply with status "alive", and every reply carries correlation_id equal to
    the triggering envelope's id and is addressed back to its sender. -/
theorem handle_message_dispatch (freshId : String) (ts : Int) (m : Message) :
    (m.type = .REQUEST →
      handle_message freshId ts m =
        some ⟨freshId, .RESPONSE, m.recipient, m.sender,
              [("status", .jStr "received")], ts, some m.id⟩) ∧
    (m.type = .RESPONSE → handle_message freshId ts m = none) ∧
    (m.type = .EVENT → handle_message freshId ts m = none) ∧
    (m.type = .ERROR →
      handle_message freshId ts m =
        some ⟨freshId, .ERROR, m.recipient, m.sender,
              [("error", .jStr "Error processed")], ts, some m.id⟩) ∧
    (m.type = .HEARTBEAT →
      handle_message freshId ts m =
        some ⟨freshId, .HEARTBEAT, m.recipient, m.sender,
              [("status", .jStr "alive")], ts, some m.id⟩) ∧
    (∀ reply, handle_message freshId ts m = some reply →
      reply.correlation_id = some m.id ∧ reply.recipient = m.sender ∧
      reply.sender = m.recipient) := by
  refine ⟨fun hty => by simp [handle_message, hty],
          fun hty => by simp [handle_message, hty],
          fun hty => by simp [handle_message, hty],
          fun hty => by simp [handle_message, hty],
          fun hty => by simp [handle_message, hty], ?_⟩
  intro reply hr
  cases hty : m.type
  all_goals simp only [handle_message, hty] at hr
  case RESPONSE => exact Option.noConfusion hr
  case EVENT => exact Option.noConfusion hr
  all_goals obtain rfl := Option.some.inj hr
  all_goals exact ⟨rfl, rfl, rfl⟩

/-- C6 witness: a concrete REQUEST envelope. -/
theorem handle_message_dispatch_witness :
    handle_message "f1" 3 c6Req =
      some ⟨"f1", .RESPONSE, "bob", "alice", [("status", .jStr "received")], 3, some "m7"⟩ :=
  (handle_message_dispatch "f1" 3 c6Req).1 rfl

/-- The removed key is no longer among the pending_requests keys. -/
theorem not_mem_dictRemove (l : List String) (k : String) : k ∉ dictRemove l k := by
  intro hmem
  rw [dictRemove, List.mem_filter] at hmem
  simp at hmem

/-- Removing a key from the pending_requests key set really removes it. -/
theorem contains_dictRemove (l : List String) (k : String) :
    (dictRemove l k).contains k = false := by
  cases hb : (dictRemove l k).contains k
  · rfl
  · exact absurd (List.elem_iff.mp hb) (not_mem_dictRemove l k)

/-- C7: when send_request times out (no matching reply resolved the future
    within the caller timeout), it returns none, the pending slot keyed by the
    request id is removed, and a later envelope carrying that correlation id
    resolves nothing. -/
theorem send_request_timeout_spec (h : MessageHandler) (freshId : String) :
    (send_request h freshId none).1 = none ∧
    (send_request h freshId none).2.pending_requests.contains freshId = false ∧
    (∀ m : Message, m.correlation_id = some freshId →
      resolvesPending (send_request h freshId none).2 m = false) := by
  refine ⟨rfl, contains_dictRemove _ _, ?_⟩
  intro m hc
  simp only [resolvesPending, hc]
  exact contains_dictRemove _ _

/-- C7 witness: a concrete timed-out request against an empty handler. -/
theorem send_request_timeout_spec_witness :
    (send_request ⟨"a1", []⟩ "rq1" none).1 = none ∧
    (send_request ⟨"a1", []⟩ "rq1" none).2.pending_requests.contains "rq1" = false ∧
    resolvesPending (send_request ⟨"a1", []⟩ "rq1" none).2
      ⟨"x9", .RESPONSE, "ghost_agent", "a1", [], 9, some "rq1"⟩ = false :=
  ⟨(send_request_timeout_spec ⟨"a1", []⟩ "rq1").1,
   (send_request_timeout_spec ⟨"a1", []⟩ "rq1").2.1,
   (send_request_timeout_spec ⟨"a1", []⟩ "rq1").2.2
     ⟨"x9", .RESPONSE, "ghost_agent", "a1", [], 9, some "rq1"⟩ rfl⟩

/-- C8 counterexample: with end_time = 0 provided (and no start_time), a
    message with timestamp 5 — strictly after end_time — is still returned:
    a bound of 0 does not filter, it is treated as absent. -/
theorem get_message_history_zero_bound_counterexample :
    get_message_history [("alice", [c8Msg])] "alice" none (some 0) = [c8Msg] ∧
    c8Msg.timestamp > 0 :=
  ⟨rfl, by decide⟩

/-- Negated strict comparison as the opposite non-strict comparison,
    at the Bool level. -/
theorem notDecideLt (a b : Int) : (!decide (a < b)) = decide (b ≤ a) := by
  by_cases hab : a < b
  all_goals simp [hab, decide_eq_false_iff_not, decide_eq_true_eq]
  all_goals omega

/-- The code's per-message keep condition agrees pointwise with the amended
    filter (bounds of 0 or absent impose no constraint). -/
theorem keep_agree (st et : Option Int) (m : Message) :
    (!(truthyF st && decide (m.timestamp < st.getD 0)) &&
     !(truthyF et && decide (m.timestamp > et.getD 0))) = specKeep st et m := by
  cases st with
  | none => cases et with
    | none => simp [truthyF, specKeep]
    | some e =>
      by_cases he : e = 0 <;> simp [truthyF, specKeep, he, Option.getD, notDecideLt]
  | some s => cases et with
    | none =>
      by_cases hs : s = 0 <;> simp [truthyF, specKeep, hs, Option.getD, notDecideLt]
    | some e =>
      by_cases hs : s = 0 <;> by_cases he : e = 0 <;>
        simp [truthyF, specKeep, hs, he, Option.getD, notDecideLt]

/-- C8 amended: get_message_history returns exactly the sender's envelopes, in
    publish order, excluding only those strictly before a set start_time or
    strictly after a set end_time — where a bound is treated as unset when it
    is absent OR equal to 0 (Python falsiness); in particular when both bounds
    are unset the whole history is returned unfiltered. -/
theorem get_message_history_filter (history : List (String × List Message))
    (agent_id : String) (start_time end_time : Option Int) :
    get_message_history history agent_id start_time end_time =
      (lookupHistory history agent_id).filter (specKeep start_time end_time) := by
  simp only [get_message_history]
  by_cases hcond : (truthyF start_time || truthyF end_time) = true
  · simp only [hcond, if_true]
    exact List.filter_congr (fun m _ => keep_agree start_time end_time m)
  · rw [if_neg hcond]
    rw [Bool.or_eq_true] at hcond
    push_neg at hcond
    obtain ⟨h1, h2⟩ := hcond
    have h1f : truthyF start_time = false := by
      revert h1; cases truthyF start_time <;> simp
    have h2f : truthyF end_time = false := by
      revert h2; cases truthyF end_time <;> simp
    symm
    apply List.filter_eq_self.mpr
    intro m _
    cases hs : start_time with
    | none =>
      cases he : end_time with
      | none => rfl
      | some e =>
        rw [he] at h2f
        have he0 : e = 0 := by simpa [truthyF] using h2f
        simp [specKeep, he0]
    | some s =>
      rw [hs] at h1f
      have hs0 : s = 0 := by simpa [truthyF] using h1f
      cases he : end_time with
      | none => simp [specKeep, hs0]
      | some e =>
        rw [he] at h2f
        have he0 : e = 0 := by simpa [truthyF] using h2f
        simp [specKeep, hs0, he0]

/-- C9: validate_state_transition accepts exactly the six edges of the contract
    lifecycle graph — PENDING→ACTIVE/CANCELLED, ACTIVE→COMPLETED/DISPUTED,
    DISPUTED→COMPLETED/CANCELLED — and rejects every other pair; in particular
    ACTIVE→PENDING is rejected and ACTIVE→COMPLETED accepted. -/
theorem validate_state_transition_table :
    (∀ c n : ContractState,
      validate_state_transition c n = true ↔
        ((c = .PENDING ∧ n = .ACTIVE) ∨ (c = .PENDING ∧ n = .CANCELLED) ∨
         (c = .ACTIVE ∧ n = .COMPLETED) ∨ (c = .ACTIVE ∧ n = .DISPUTED) ∨
         (c = .DISPUTED ∧ n = .COMPLETED) ∨ (c = .DISPUTED ∧ n = .CANCELLED))) ∧
    validate_state_transition .ACTIVE .PENDING = false ∧
    validate_state_transition .ACTIVE .COMPLETED = true := by
  refine ⟨fun c n => ?_, rfl, rfl⟩
  cases c <;> cases n <;> decide

/-- C10: the records produced by record_transaction carry only id, timestamp
    and data — no "type" field — so TransactionValidator.validate_transaction
    rejects every one of them, and ChainValidator.validate_block returns false
    for any block whose transaction list contains one. -/
theorem record_transaction_rejected (id : String) (ts : Int) (data : JVal) (now : Int) :
    validate_transaction (txRecord id ts data) now = false ∧
    (∀ (block : Tx) (previous_hash : String) (difficulty : Nat) (txs : List Tx),
      getTxList ((jLookup block "transactions").getD .jNull) = some txs →
      txRecord id ts data ∈ txs →
      validate_block block previous_hash difficulty now = some false) := by
  have hval : validate_transaction (txRecord id ts data) now = false := rfl
  refine ⟨hval, ?_⟩
  intro block prev d txs hget hmem
  have hall : txs.all (fun t => validate_transaction t now) = false := by
    cases hb : txs.all (fun t => validate_transaction t now)
    · rfl
    · have := List.all_eq_true.mp hb _ hmem
      rw [hval] at this
      exact Bool.noConfusion this
  rw [validate_block]
  cases hstruct : validate_block_structure block with
  | false => simp only [hstruct, Bool.not_false, if_true]
  | true =>
    simp only [hstruct, Bool.not_true, if_false]
    cases hp : jLookup block "previous_hash" with
    | none => rfl
    | some v =>
      cases v with
      | jStr p =>
        by_cases hpe : p = prev
        · simp only [hpe, bne_self_eq_false, if_false]
          cases hh : validate_block_hash block d with
          | false => simp [hh]
          | true => simp [hh, hget, hall]
        · simp [bne_iff_ne, hpe]
      | jInt n => rfl
      | jFloat n => rfl
      | jNull => rfl
      | jList xs => rfl
      | jObj kvs => rfl

/-- C10 witness: the concrete record {id, timestamp, data} inside a block. -/
theorem record_transaction_rejected_witness :
    validate_transaction c10Tx 10 = false ∧
    validate_block c10Block "x" 4 10 = some false :=
  ⟨(record_transaction_rejected "t1" 5 (.jObj []) 10).1,
   (record_transaction_rejected "t1" 5 (.jObj []) 10).2 c10Block "x" 4 [c10Tx] rfl
     (List.mem_singleton.mpr rfl)⟩
